import Mathlib

/-!
Verification of the ringbuf repository's ring-buffer implementations.

The repository contains two ring-buffer designs:

* `Reserved`: the `src/ring_buffer.rs` implementation, which keeps `head`
  (read position) and `tail` (write position) in the domain `0 .. data.len()`
  and reserves one storage slot to disambiguate full from empty
  (`capacity() == data.len() - 1`).

* `Doubled`: the `src/rb/local.rs` + `src/traits/producer.rs` implementation,
  which keeps `read`/`write` indices in the doubled extended domain
  `0 .. 2 * capacity` and derives occupancy from the lap distance between
  them.

Machine integers (`usize`) are modelled as `Nat`; every place where the Rust
code reduces modulo a storage length or the extended domain carries an
explicit `%`.  Uninitialized element slots (`MaybeUninit<T>`) are modelled as
`Option` cells: `some x` is an initialized slot holding `x`, `none` is
uninitialized.  Slices into the backing storage are modelled by the lists of
storage positions they cover, in iteration order.
-/

/-- Positions of a half-open index range `r.1 .. r.2` listed in order; models
a Rust `Range<usize>` used to index storage. -/
def posList (r : Nat × Nat) : List Nat := (List.range (r.2 - r.1)).map (r.1 + ·)

namespace Reserved

/-- State of `RingBuffer<T, C>` from `src/ring_buffer.rs`: a backing container
of `dataLen` slots (`self.data.len()`), an atomic `head` (read position) and
an atomic `tail` (write position).  Cell contents are irrelevant to the
derived queries, so this record keeps only the lengths and indices. -/
structure RingBuffer where
  dataLen : Nat
  head : Nat
  tail : Nat

/-- Rust `capacity()`: `self.data.len() - 1` (one slot is reserved). -/
def capacity (rb : RingBuffer) : Nat := rb.dataLen - 1

/-- Rust `is_empty()`: `head == tail`. -/
def is_empty (rb : RingBuffer) : Bool := rb.head == rb.tail

/-- Rust `is_full()`: `(tail + 1) % self.data.len() == head`. -/
def is_full (rb : RingBuffer) : Bool := (rb.tail + 1) % rb.dataLen == rb.head

/-- Rust `len()`: `(tail + self.data.len() - head) % self.data.len()`. -/
def len (rb : RingBuffer) : Nat :=
  (rb.tail + rb.dataLen - rb.head) % rb.dataLen

/-- Rust `remaining()`: `self.capacity() - self.len()`. -/
def remaining (rb : RingBuffer) : Nat := capacity rb - len rb

/-- Rust `RingBuffer::new(capacity)`: allocates `capacity + 1` slots and calls
`from_raw_parts(data, 0, 0)`. -/
def new (cap : Nat) : RingBuffer := ⟨cap + 1, 0, 0⟩

/-- Rust `Default for RingBuffer<T, [MaybeUninit<T>; N]>`: takes the `N`-slot
array as-is and calls `from_raw_parts(array, 0, 0)`. -/
def defaultArray (N : Nat) : RingBuffer := ⟨N, 0, 0⟩

/-- Rust `Drop for RingBuffer` (src/ring_buffer.rs): the pair of index ranges
whose cells get their destructor run, taken verbatim from the source:
`if head <= tail { (head..tail, 0..0) } else { (head..len, 0..tail) }` where
`len` there is `data.len()`. -/
def dropRanges (rb : RingBuffer) : (Nat × Nat) × (Nat × Nat) :=
  if rb.head ≤ rb.tail then ((rb.head, rb.tail), (0, 0))
  else ((rb.head, rb.dataLen), (0, rb.tail))

/-- Storage positions destroyed by `Drop`, first range then second, in
iteration order. -/
def droppedPositions (rb : RingBuffer) : List Nat :=
  posList (dropRanges rb).1 ++ posList (dropRanges rb).2

end Reserved

namespace Doubled

/-- State of `LocalRb<S>` from `src/rb/local.rs`: the backing storage as a
list of `capacity` cells (`none` = uninitialized), plus the `read` and `write`
end positions.  The held flags play no role in the claims below and are
omitted. -/
structure LocalRb (α : Type) where
  data : List (Option α)
  readIdx : Nat
  writeIdx : Nat

variable {α : Type} {ε : Type}

/-- Rust `Observer::capacity()` for `LocalRb`: the storage length (nonzero by
construction in the source, carried here as a hypothesis where needed). -/
def capacity (rb : LocalRb α) : Nat := rb.data.length

/-- Modelled from the spec: the derived occupancy `len()` of the Observer
(`src/traits/observer.rs` is not under src/); invariant I3 fixes the extended
index domain to twice the capacity, and occupancy is the lap distance from
`read` to `write` in that domain. -/
def lenIdx (N r w : Nat) : Nat := (2 * N + w - r) % (2 * N)

/-- Occupancy of a `LocalRb` state (the Observer's `len()`). -/
def len (rb : LocalRb α) : Nat := lenIdx (capacity rb) rb.readIdx rb.writeIdx

/-- Modelled from the spec: the Observer's `remaining()`; §4.2 requires
`len() + remaining() == capacity()` always. -/
def remaining (rb : LocalRb α) : Nat := capacity rb - len rb

/-- Modelled from the spec: the Observer's `is_full()`; §4.2 requires
`is_full() == (len() == capacity())`. -/
def is_full (rb : LocalRb α) : Bool := len rb == capacity rb

/-- Modelled from the spec: `ranges` (`src/rb/utils.rs` is not under src/),
the index arithmetic `LocalRb::unsafe_slices` delegates to; per §4.2 it takes
a half-open range of the extended domain, reduces it mod `N`, and splits at
the point where it wraps past the end of storage, returning an empty second
range when no wrap occurs.  The extent of the range is measured in the
extended (mod `2 * N`) index domain of invariant I3. -/
def ranges (N start e : Nat) : (Nat × Nat) × (Nat × Nat) :=
  if start % N + (e - start) % (2 * N) ≤ N then
    ((start % N, start % N + (e - start) % (2 * N)), (0, 0))
  else
    ((start % N, N), (0, start % N + (e - start) % (2 * N) - N))

/-- Storage positions covered by the two slices `unsafe_slices(start, e)`
returns, first slice then second, in iteration order. -/
def projPositions (N start e : Nat) : List Nat :=
  posList (ranges N start e).1 ++ posList (ranges N start e).2

/-- Rust `Producer::vacant_slices_mut()` (src/traits/producer.rs): the
projection `unsafe_slices(write_index, read_index + capacity)`; this is the
underlying pair of ranges. -/
def vacantRanges (rb : LocalRb α) : (Nat × Nat) × (Nat × Nat) :=
  ranges (capacity rb) rb.writeIdx (rb.readIdx + capacity rb)

/-- Storage positions of the vacant region, left slice then right slice. -/
def vacantPositions (rb : LocalRb α) : List Nat :=
  posList (vacantRanges rb).1 ++ posList (vacantRanges rb).2

/-- Storage positions of the first (left) vacant slice only. -/
def vacantLeft (rb : LocalRb α) : List Nat := posList (vacantRanges rb).1

/-- Rust `Producer::advance_write_index(count)` (src/traits/producer.rs):
`set_write_index((write_index() + count) % modulus)` with the extended-domain
modulus `2 * capacity` (modelled from the spec, I3). -/
def advance_write_index (rb : LocalRb α) (count : Nat) : LocalRb α :=
  { rb with writeIdx := (rb.writeIdx + count) % (2 * capacity rb) }

/-- Writes the values `xs` into the storage cells at the positions `ps`, in
order, stopping when either list runs out; models `write_slice` /
element-wise placement writes into a slice of `MaybeUninit` cells. -/
def writeAt : List (Option α) → List Nat → List α → List (Option α)
  | d, p :: ps, x :: xs => writeAt (d.set p (some x)) ps xs
  | d, _, _ => d

/-- Rust `Producer::try_push(elem)` (src/traits/producer.rs): if not full,
writes `elem` into the first cell of the first vacant slice and advances the
write index by 1 returning `Ok(())` (here `none`); otherwise returns
`Err(elem)` (here `some elem`) and leaves the state untouched. -/
def try_push (rb : LocalRb α) (x : α) : LocalRb α × Option α :=
  if is_full rb then (rb, some x)
  else
    (advance_write_index
      { rb with data := rb.data.set (vacantRanges rb).1.1 (some x) } 1, none)

/-- Rust `Producer::push_slice(elems)` (src/traits/producer.rs): copies the
leading elements that fit into the left vacant slice, then into the right
one, mirroring the source's nested-comparison structure, then advances the
write index by the total count and returns it. -/
def push_slice (rb : LocalRb α) (elems : List α) : LocalRb α × Nat :=
  let left := posList (vacantRanges rb).1
  let right := posList (vacantRanges rb).2
  let dc : List (Option α) × Nat :=
    if elems.length < left.length then
      (writeAt rb.data left elems, elems.length)
    else
      let pair := elems.splitAt left.length
      let d1 := writeAt rb.data left pair.1
      if pair.2.length < right.length then
        (writeAt d1 right pair.2, left.length + pair.2.length)
      else
        (writeAt d1 right (pair.2.take right.length),
         left.length + right.length)
  (advance_write_index { rb with data := dc.1 } dc.2, dc.2)

/-- Number of bytes `read_from` asks the external reader for:
`min(count.unwrap_or(left.len()), left.len())`. -/
def readCount (rb : LocalRb α) (countArg : Option Nat) : Nat :=
  min (countArg.getD (vacantLeft rb).length) (vacantLeft rb).length

/-- Rust `Producer::read_from(reader, count)` (src/traits/producer.rs): asks
the external byte source to fill at most `readCount` cells of the first
vacant slice; a reader error is propagated unchanged with the state left
untouched (`?` operator), a successful read of `n` bytes stores them at the
head of the left slice and advances the write index by exactly `n`.  The
external `Read` instance is modelled as a function from the presented buffer
length to either an error or the list of bytes it wrote. -/
def read_from (rb : LocalRb α) (reader : Nat → Except ε (List α))
    (countArg : Option Nat) : LocalRb α × Except ε Nat :=
  let left := vacantLeft rb
  let count := readCount rb countArg
  match reader count with
  | Except.error er => (rb, Except.error er)
  | Except.ok bytes =>
      (advance_write_index
        { rb with data := writeAt rb.data (left.take count) bytes }
        bytes.length,
       Except.ok bytes.length)

/-- Error kind of the byte-sink adapter; the source only ever constructs
`io::ErrorKind::WouldBlock`. -/
inductive IoErrorKind where
  | wouldBlock
deriving DecidableEq

/-- Rust `Producer::write(buffer)` (src/traits/producer.rs): pushes as much
of `buffer` as fits; when nothing was pushed and `buffer` is nonempty it
returns `Err(WouldBlock)`, otherwise `Ok(count)`. -/
def write (rb : LocalRb α) (buffer : List α) :
    LocalRb α × Except IoErrorKind Nat :=
  let res := push_slice rb buffer
  if res.2 = 0 ∧ buffer.isEmpty = false then
    (res.1, Except.error IoErrorKind.wouldBlock)
  else (res.1, Except.ok res.2)

/-- States the producer-side claims speak about: nonzero capacity (enforced
by `Storage` in the source), both indices inside the extended domain
(invariant I3, maintained by every `% modulus` advance), and occupancy at
most the capacity (invariant I1: at most `capacity` initialized slots). -/
def Valid (rb : LocalRb α) : Prop :=
  1 ≤ capacity rb ∧ rb.readIdx < 2 * capacity rb
  ∧ rb.writeIdx < 2 * capacity rb ∧ len rb ≤ capacity rb

end Doubled

/-- Helper: a value below `2 * L` reduced mod `L` is itself, or itself minus
`L`, depending on which half it lies in. -/
theorem mod_cases_of_lt_two_mul (v L : Nat) (h : v < 2 * L) :
    v % L = if v < L then v else v - L := by
  by_cases hv : v < L
  · simp [Nat.mod_eq_of_lt hv, hv]
  · have h1 : L ≤ v := Nat.le_of_not_lt hv
    rw [Nat.mod_eq_sub_mod h1, Nat.mod_eq_of_lt (by omega)]
    simp [hv]

theorem posList_length (r : Nat × Nat) : (posList r).length = r.2 - r.1 := by
  unfold posList
  simp

namespace Reserved

/-- Helper: with both indices inside the index domain `0 .. dataLen`, `len`
reduces to the circular distance without any `%`. -/
theorem len_eq (rb : RingBuffer) (hh : rb.head < rb.dataLen)
    (ht : rb.tail < rb.dataLen) :
    len rb = if rb.head ≤ rb.tail then rb.tail - rb.head
             else rb.tail + rb.dataLen - rb.head := by
  unfold len
  rw [mod_cases_of_lt_two_mul _ _ (by omega)]
  split <;> split <;> omega

/-- Helper: `len` never exceeds `capacity`. -/
theorem len_le_capacity (rb : RingBuffer) (hh : rb.head < rb.dataLen)
    (ht : rb.tail < rb.dataLen) : len rb ≤ capacity rb := by
  rw [len_eq rb hh ht]
  unfold capacity
  split <;> omega

/-- Helper: `is_full` decides `len = capacity` on the index domain. -/
theorem is_full_iff (rb : RingBuffer) (hh : rb.head < rb.dataLen)
    (ht : rb.tail < rb.dataLen) :
    is_full rb = true ↔ len rb = capacity rb := by
  unfold is_full capacity
  rw [len_eq rb hh ht]
  rw [mod_cases_of_lt_two_mul _ _ (by omega)]
  rw [beq_iff_eq]
  split <;> split <;> omega

/-- Helper: the positions `Drop` destroys are exactly the circular occupied
range `head, head+1, …, head+len-1` reduced mod `data.len()`, in that
order. -/
theorem droppedPositions_eq (rb : RingBuffer) (hh : rb.head < rb.dataLen)
    (ht : rb.tail < rb.dataLen) :
    droppedPositions rb =
      (List.range (len rb)).map (fun k => (rb.head + k) % rb.dataLen) := by
  unfold droppedPositions dropRanges posList
  rw [len_eq rb hh ht]
  by_cases hc : rb.head ≤ rb.tail
  · simp only [if_pos hc, Nat.sub_self, List.range_zero, List.map_nil,
      List.append_nil]
    apply List.map_congr_left
    intro k hk
    rw [List.mem_range] at hk
    rw [Nat.mod_eq_of_lt (by omega)]
  · simp only [if_neg hc, Nat.sub_zero]
    have hsplit : rb.tail + rb.dataLen - rb.head =
        (rb.dataLen - rb.head) + rb.tail := by omega
    rw [hsplit, List.range_add, List.map_append, List.map_map]
    congr 1
    · apply List.map_congr_left
      intro k hk
      rw [List.mem_range] at hk
      rw [Nat.mod_eq_of_lt (by omega)]
    · apply List.map_congr_left
      intro j hj
      rw [List.mem_range] at hj
      simp only [Function.comp]
      have h2 : rb.head + (rb.dataLen - rb.head + j) = rb.dataLen + j := by
        omega
      rw [h2, Nat.add_mod_left, Nat.mod_eq_of_lt (by omega)]
      omega

end Reserved

/-- C1: for every head and tail in the index domain `0 .. data.len()`, the
derived queries of `src/ring_buffer.rs` are mutually consistent:
`len() + remaining() == capacity()`, `is_empty() == (len() == 0)` and
`is_full() == (len() == capacity())`.  Since all four are pure functions of
the (head, tail) state, the first identity in particular holds after every
push or pop operation. -/
theorem reserved_derived_queries_consistent (rb : Reserved.RingBuffer)
    (hh : rb.head < rb.dataLen) (ht : rb.tail < rb.dataLen) :
    Reserved.len rb + Reserved.remaining rb = Reserved.capacity rb
    ∧ (Reserved.is_empty rb = true ↔ Reserved.len rb = 0)
    ∧ (Reserved.is_full rb = true ↔ Reserved.len rb = Reserved.capacity rb) := by
  refine ⟨?_, ?_, Reserved.is_full_iff rb hh ht⟩
  · have h := Reserved.len_le_capacity rb hh ht
    unfold Reserved.remaining
    omega
  · unfold Reserved.is_empty
    rw [beq_iff_eq, Reserved.len_eq rb hh ht]
    split <;> omega

theorem reserved_derived_queries_consistent_witness :
    Reserved.len (Reserved.RingBuffer.mk 5 2 4)
      + Reserved.remaining (Reserved.RingBuffer.mk 5 2 4)
      = Reserved.capacity (Reserved.RingBuffer.mk 5 2 4)
    ∧ (Reserved.is_empty (Reserved.RingBuffer.mk 5 2 4) = true
        ↔ Reserved.len (Reserved.RingBuffer.mk 5 2 4) = 0)
    ∧ (Reserved.is_full (Reserved.RingBuffer.mk 5 2 4) = true
        ↔ Reserved.len (Reserved.RingBuffer.mk 5 2 4)
            = Reserved.capacity (Reserved.RingBuffer.mk 5 2 4)) :=
  reserved_derived_queries_consistent (Reserved.RingBuffer.mk 5 2 4)
    (by decide) (by decide)

/-- C8: for every capacity `N ≥ 1`, a freshly constructed buffer
(`RingBuffer::new(N)`, which allocates `N + 1` slots with `head = tail = 0`)
satisfies `len() == 0`, `is_empty()`, `!is_full()`, `remaining() == N` and
`capacity() == N`. -/
theorem reserved_new_is_pristine (N : Nat) (hN : 1 ≤ N) :
    Reserved.len (Reserved.new N) = 0
    ∧ Reserved.is_empty (Reserved.new N) = true
    ∧ Reserved.is_full (Reserved.new N) = false
    ∧ Reserved.remaining (Reserved.new N) = N
    ∧ Reserved.capacity (Reserved.new N) = N := by
  have hlen : Reserved.len (Reserved.new N) = 0 := by
    unfold Reserved.new Reserved.len
    simp
  have hfull : Reserved.is_full (Reserved.new N) = false := by
    unfold Reserved.new Reserved.is_full
    have h1 : (0 + 1) % (N + 1) = 1 := by
      rw [Nat.mod_eq_of_lt] <;> omega
    simp [h1]
  refine ⟨hlen, rfl, hfull, ?_, rfl⟩
  have hcap : Reserved.capacity (Reserved.new N) = N := rfl
  unfold Reserved.remaining
  rw [hlen, hcap]
  omega

theorem reserved_new_is_pristine_witness :
    Reserved.len (Reserved.new 4) = 0
    ∧ Reserved.is_empty (Reserved.new 4) = true
    ∧ Reserved.is_full (Reserved.new 4) = false
    ∧ Reserved.remaining (Reserved.new 4) = 4
    ∧ Reserved.capacity (Reserved.new 4) = 4 :=
  reserved_new_is_pristine 4 (by decide)

/-- C9: the array-backed `Default` constructor wraps the `N`-slot backing
array directly, so its `capacity()` is `N - 1` (one slot reserved for
full/empty disambiguation) and not `N`; `new(c)` by contrast over-allocates
`c + 1` slots so that `capacity()` equals the requested `c`. -/
theorem reserved_default_array_capacity (N c : Nat) (hN : 1 ≤ N) :
    Reserved.capacity (Reserved.defaultArray N) = N - 1
    ∧ Reserved.capacity (Reserved.defaultArray N) ≠ N
    ∧ (Reserved.defaultArray N).dataLen = N
    ∧ Reserved.capacity (Reserved.new c) = c
    ∧ (Reserved.new c).dataLen = c + 1 := by
  refine ⟨rfl, ?_, rfl, rfl, rfl⟩
  have h : Reserved.capacity (Reserved.defaultArray N) = N - 1 := rfl
  rw [h]
  omega

theorem reserved_default_array_capacity_witness :
    Reserved.capacity (Reserved.defaultArray 4) = 3
    ∧ Reserved.capacity (Reserved.defaultArray 4) ≠ 4
    ∧ (Reserved.defaultArray 4).dataLen = 4
    ∧ Reserved.capacity (Reserved.new 4) = 4
    ∧ (Reserved.new 4).dataLen = 5 :=
  reserved_default_array_capacity 4 4 (by decide)

/-- C10: with at least 2 storage slots (capacity at least 1) and both indices
in the index domain, `is_empty()` and `is_full()` are never simultaneously
true: `head == tail` and `(tail + 1) % data.len() == head` cannot both
hold. -/
theorem reserved_not_empty_and_full (rb : Reserved.RingBuffer)
    (hL : 2 ≤ rb.dataLen) (hh : rb.head < rb.dataLen)
    (ht : rb.tail < rb.dataLen) :
    ¬(Reserved.is_empty rb = true ∧ Reserved.is_full rb = true) := by
  unfold Reserved.is_empty Reserved.is_full
  rw [beq_iff_eq, beq_iff_eq,
    mod_cases_of_lt_two_mul _ _ (by omega)]
  intro hand
  obtain ⟨h1, h2⟩ := hand
  split at h2 <;> omega

theorem reserved_not_empty_and_full_witness :
    ¬(Reserved.is_empty (Reserved.RingBuffer.mk 5 2 4) = true
      ∧ Reserved.is_full (Reserved.RingBuffer.mk 5 2 4) = true) :=
  reserved_not_empty_and_full (Reserved.RingBuffer.mk 5 2 4)
    (by decide) (by decide) (by decide)

/-- C5: teardown (`Drop for RingBuffer`) destroys exactly the occupied
circular range: the list of destroyed storage positions (first range, then
second) is exactly `head mod L, head+1 mod L, …, head+len-1 mod L` in order,
contains no duplicates (no element destroyed twice), and has length `len()`
(every occupied element destroyed, nothing else).  For a buffer holding `j`
never-popped elements (`len() = j`), exactly `j` destructors run. -/
theorem reserved_drop_destroys_occupied_exactly_once (rb : Reserved.RingBuffer)
    (hh : rb.head < rb.dataLen) (ht : rb.tail < rb.dataLen) :
    Reserved.droppedPositions rb =
      (List.range (Reserved.len rb)).map (fun k => (rb.head + k) % rb.dataLen)
    ∧ (Reserved.droppedPositions rb).Nodup
    ∧ (Reserved.droppedPositions rb).length = Reserved.len rb := by
  have key := Reserved.droppedPositions_eq rb hh ht
  have hlen := Reserved.len_le_capacity rb hh ht
  unfold Reserved.capacity at hlen
  refine ⟨key, ?_, ?_⟩
  · rw [key]
    apply List.Nodup.map_on _ (List.nodup_range _)
    intro k1 h1 k2 h2 heq
    rw [List.mem_range] at h1 h2
    rw [mod_cases_of_lt_two_mul _ _ (by omega),
      mod_cases_of_lt_two_mul _ _ (by omega)] at heq
    split at heq <;> split at heq <;> omega
  · rw [key]
    simp

theorem reserved_drop_destroys_occupied_exactly_once_witness :
    Reserved.droppedPositions (Reserved.RingBuffer.mk 5 3 1)
      = (List.range (Reserved.len (Reserved.RingBuffer.mk 5 3 1))).map
          (fun k => ((Reserved.RingBuffer.mk 5 3 1).head + k) % 5)
    ∧ (Reserved.droppedPositions (Reserved.RingBuffer.mk 5 3 1)).Nodup
    ∧ (Reserved.droppedPositions (Reserved.RingBuffer.mk 5 3 1)).length
        = Reserved.len (Reserved.RingBuffer.mk 5 3 1) :=
  reserved_drop_destroys_occupied_exactly_once (Reserved.RingBuffer.mk 5 3 1)
    (by decide) (by decide)

namespace Doubled

variable {α : Type} {ε : Type}

/-- Helper: adding `k` to a position does not cross a storage boundary when
its residue stays below `N`. -/
theorem add_mod_of_lt (start k N : Nat) (h : start % N + k < N) :
    (start + k) % N = start % N + k := by
  rw [Nat.add_mod, Nat.mod_eq_of_lt (show k < N by omega),
    Nat.mod_eq_of_lt h]

/-- Helper: jumping from a position to the end of storage and `j` further
lands on raw position `j`. -/
theorem add_mod_wrap (start j N : Nat) (hN : 1 ≤ N) (hj : j < N) :
    (start + (N - start % N + j)) % N = j := by
  have hs : start % N < N := Nat.mod_lt _ (by omega)
  have h2 := Nat.div_add_mod start N
  have h1 : start + (N - start % N + j) = N * (start / N) + N + j := by omega
  have h3 : N * (start / N) + N + j = N * (start / N + 1) + j := by ring
  rw [h1, h3, Nat.mul_add_mod, Nat.mod_eq_of_lt hj]

/-- Helper: the two ranges of the slice projection sum in length to the
extent of the projected range, whenever that extent fits the capacity. -/
theorem ranges_length (N start e : Nat) (hN : 1 ≤ N) :
    (posList (ranges N start e).1).length
      + (posList (ranges N start e).2).length
      = (e - start) % (2 * N) := by
  have hs : start % N < N := Nat.mod_lt _ (by omega)
  unfold ranges
  split <;> simp only [posList_length] <;> omega

/-- Helper: for an in-capacity range, the projected positions are exactly the
raw residues `start mod N, start+1 mod N, …, e-1 mod N`, in order. -/
theorem projPositions_eq (N start e : Nat) (hN : 1 ≤ N) (hle : start ≤ e)
    (hlen : e - start ≤ N) :
    projPositions N start e
      = (List.range (e - start)).map (fun k => (start + k) % N) := by
  have hs : start % N < N := Nat.mod_lt _ (by omega)
  have hext : (e - start) % (2 * N) = e - start :=
    Nat.mod_eq_of_lt (by omega)
  unfold projPositions ranges posList
  rw [hext]
  by_cases hc : start % N + (e - start) ≤ N
  · rw [if_pos hc]
    simp only [Nat.sub_self, List.range_zero, List.map_nil, List.append_nil]
    have h4 : start % N + (e - start) - start % N = e - start := by omega
    rw [h4]
    apply List.map_congr_left
    intro k hk
    rw [List.mem_range] at hk
    rw [add_mod_of_lt start k N (by omega)]
  · rw [if_neg hc]
    simp only [Nat.sub_zero]
    conv_rhs =>
      rw [show e - start
            = (N - start % N) + (start % N + (e - start) - N) from by omega,
        List.range_add]
    rw [List.map_append, List.map_map]
    congr 1
    · apply List.map_congr_left
      intro k hk
      rw [List.mem_range] at hk
      rw [add_mod_of_lt start k N (by omega)]
    · apply List.map_congr_left
      intro j hj
      rw [List.mem_range] at hj
      simp only [Function.comp]
      rw [add_mod_wrap start j N hN (by omega)]
      omega

/-- Helper: on a valid state the extent of the vacant projection
`[write, read + capacity)` equals `remaining()`. -/
theorem vacant_ext_eq (rb : LocalRb α) (hv : Valid rb) :
    (rb.readIdx + capacity rb - rb.writeIdx) % (2 * capacity rb)
      = remaining rb := by
  obtain ⟨hN, hr, hw, hlen⟩ := hv
  have ha := mod_cases_of_lt_two_mul
    (2 * capacity rb + rb.writeIdx - rb.readIdx) (2 * capacity rb) (by omega)
  have hb := mod_cases_of_lt_two_mul
    (rb.readIdx + capacity rb - rb.writeIdx) (2 * capacity rb) (by omega)
  unfold remaining len lenIdx at *
  rw [ha] at hlen
  rw [hb, ha]
  split at hlen <;> split <;> omega

/-- Helper: on a valid state the vacant projection covers exactly
`remaining()` storage positions. -/
theorem vacantPositions_length (rb : LocalRb α) (hv : Valid rb) :
    (vacantPositions rb).length = remaining rb := by
  have h1 := vacant_ext_eq rb hv
  have h2 := ranges_length (capacity rb) rb.writeIdx
    (rb.readIdx + capacity rb) hv.1
  unfold vacantPositions vacantRanges
  rw [List.length_append, h2, h1]

/-- Helper: advancing the write index by `count` (staying within capacity)
grows the derived occupancy by exactly `count`. -/
theorem lenIdx_advance (N r w c : Nat) (hN : 1 ≤ N) (hr : r < 2 * N)
    (hw : w < 2 * N) (hc : lenIdx N r w + c ≤ N) :
    lenIdx N r ((w + c) % (2 * N)) = lenIdx N r w + c := by
  have hcN : c ≤ N := le_trans (Nat.le_add_left _ _) hc
  unfold lenIdx at *
  have ha := mod_cases_of_lt_two_mul (2 * N + w - r) (2 * N) (by omega)
  have hwc := mod_cases_of_lt_two_mul (w + c) (2 * N) (by omega)
  rw [ha] at hc
  rw [hwc, ha]
  split at hc <;> split <;>
    (rw [mod_cases_of_lt_two_mul _ _ (by omega)]; split <;> omega)

/-- Helper: writing an empty value list changes nothing. -/
theorem writeAt_nil (d : List (Option α)) (ps : List Nat) :
    writeAt d ps ([] : List α) = d := by
  cases ps <;> rfl

/-- Helper: writing along a concatenation of position lists writes the first
block, then the rest of the values along the second block. -/
theorem writeAt_append (d : List (Option α)) (ps qs : List Nat)
    (xs : List α) :
    writeAt d (ps ++ qs) xs
      = writeAt (writeAt d ps xs) qs (xs.drop ps.length) := by
  induction ps generalizing d xs with
  | nil => rfl
  | cons p ps ih =>
    cases xs with
    | nil => simp [writeAt_nil, List.drop_nil]
    | cons x xs =>
      simp only [List.cons_append, List.length_cons, List.drop_succ_cons,
        writeAt]
      exact ih _ _

/-- Helper: only the first `ps.length` values can ever be written. -/
theorem writeAt_take (d : List (Option α)) (ps : List Nat) (xs : List α) :
    writeAt d ps (xs.take ps.length) = writeAt d ps xs := by
  induction ps generalizing d xs with
  | nil => rfl
  | cons p ps ih =>
    cases xs with
    | nil => rfl
    | cons x xs =>
      simp only [List.length_cons, List.take_succ_cons, writeAt]
      exact ih _ _

/-- Helper: writing cells preserves the storage length. -/
theorem writeAt_length (d : List (Option α)) (ps : List Nat) (xs : List α) :
    (writeAt d ps xs).length = d.length := by
  induction ps generalizing d xs with
  | nil => rfl
  | cons p ps ih =>
    cases xs with
    | nil => rfl
    | cons x xs =>
      simp only [writeAt]
      rw [ih, List.length_set]

/-- Helper: a cell whose position is not written keeps its contents. -/
theorem writeAt_getElem_not_mem (d : List (Option α)) (ps : List Nat)
    (xs : List α) (q : Nat) (hq : q ∉ ps) :
    (writeAt d ps xs)[q]? = d[q]? := by
  induction ps generalizing d xs with
  | nil => rfl
  | cons p ps ih =>
    cases xs with
    | nil => rfl
    | cons x xs =>
      have hqp : p ≠ q := by
        intro h
        exact hq (h ▸ List.mem_cons_self _ _)
      have hq' : q ∉ ps := fun h => hq (List.mem_cons_of_mem _ h)
      simp only [writeAt]
      rw [ih _ _ hq', List.getElem?_set_ne hqp]

/-- Helper: a nonempty position range is its low end followed by the rest. -/
theorem posList_cons (r : Nat × Nat) (h : r.1 < r.2) :
    posList r = r.1 :: posList (r.1 + 1, r.2) := by
  unfold posList
  have h1 : r.2 - r.1 = (r.2 - (r.1 + 1)) + 1 := by omega
  rw [h1, List.range_succ_eq_map, List.map_cons, List.map_map]
  simp only [Nat.add_zero]
  congr 1
  apply List.map_congr_left
  intro k hk
  simp only [Function.comp, Nat.succ_eq_add_one]
  omega

/-- Helper: on a valid non-full state, the first vacant range is nonempty. -/
theorem vacantRanges_fst_lt (rb : LocalRb α) (hv : Valid rb)
    (hlt : len rb < capacity rb) :
    (vacantRanges rb).1.1 < (vacantRanges rb).1.2 := by
  have hN := hv.1
  have hrem : 1 ≤ remaining rb := by
    unfold remaining
    omega
  have hs : rb.writeIdx % capacity rb < capacity rb :=
    Nat.mod_lt _ (by omega)
  unfold vacantRanges ranges
  rw [vacant_ext_eq rb hv]
  split <;> dsimp only <;> omega

/-- Helper: on a valid non-full state, the vacant position list starts with
the head cell of the left vacant slice. -/
theorem vacantPositions_cons (rb : LocalRb α) (hv : Valid rb)
    (hlt : len rb < capacity rb) :
    vacantPositions rb
      = (vacantRanges rb).1.1
          :: (posList ((vacantRanges rb).1.1 + 1, (vacantRanges rb).1.2)
              ++ posList (vacantRanges rb).2) := by
  unfold vacantPositions
  rw [posList_cons _ (vacantRanges_fst_lt rb hv hlt)]
  rfl

/-- Helper: a false `is_full` means strictly positive remaining space. -/
theorem len_lt_of_not_full (rb : LocalRb α) (hv : Valid rb)
    (hnf : is_full rb = false) : len rb < capacity rb := by
  have hne : len rb ≠ capacity rb := by
    simpa [is_full] using hnf
  have hle := hv.2.2.2
  omega

end Doubled

/-- C2: the slice projection (`unsafe_slices` via `ranges`) is correct: for
every half-open range with `start ≤ e` and extent at most the capacity `N`,
the two returned slices sum in length to `e - start`, their concatenation
visits exactly the real storage positions
`start mod N, start+1 mod N, …, e-1 mod N` in that order, an empty range
(`start = e`) yields two empty slices, and the second slice is empty whenever
the range does not wrap past the end of storage. -/
theorem doubled_slice_projection (N start e : Nat) (hN : 1 ≤ N)
    (hle : start ≤ e) (hlen : e - start ≤ N) :
    (posList (Doubled.ranges N start e).1).length
      + (posList (Doubled.ranges N start e).2).length = e - start
    ∧ Doubled.projPositions N start e
        = (List.range (e - start)).map (fun k => (start + k) % N)
    ∧ (start = e → Doubled.projPositions N start e = [])
    ∧ (start % N + (e - start) ≤ N →
        posList (Doubled.ranges N start e).2 = []) := by
  have hext : (e - start) % (2 * N) = e - start :=
    Nat.mod_eq_of_lt (by omega)
  refine ⟨?_, Doubled.projPositions_eq N start e hN hle hlen, ?_, ?_⟩
  · rw [Doubled.ranges_length N start e hN, hext]
  · intro h
    rw [Doubled.projPositions_eq N start e hN hle hlen, h]
    simp
  · intro h
    unfold Doubled.ranges
    rw [hext, if_pos h]
    simp [posList]

theorem doubled_slice_projection_witness :
    ((posList (Doubled.ranges 3 2 5).1).length
      + (posList (Doubled.ranges 3 2 5).2).length = 5 - 2
    ∧ Doubled.projPositions 3 2 5
        = (List.range (5 - 2)).map (fun k => (2 + k) % 3)
    ∧ (2 = 5 → Doubled.projPositions 3 2 5 = [])
    ∧ (2 % 3 + (5 - 2) ≤ 3 → posList (Doubled.ranges 3 2 5).2 = [])) :=
  doubled_slice_projection 3 2 5 (by decide) (by decide) (by decide)

/-- C3: `try_push(item)` on a valid state: when the buffer is full it returns
`Err` carrying back the same rejected item with the state (indices and
contents) completely unchanged; when not full it returns `Ok`, writes the
item into the first vacant cell (the head of the vacant projection), leaves
the read index and all other cells alone, advances the write index by exactly
1 in the extended domain, and the occupancy grows by exactly 1. -/
theorem doubled_try_push_correct {α : Type} (rb : Doubled.LocalRb α)
    (hv : Doubled.Valid rb) (x : α) :
    (Doubled.is_full rb = true → Doubled.try_push rb x = (rb, some x))
    ∧ (Doubled.is_full rb = false →
        (Doubled.try_push rb x).2 = none
        ∧ Doubled.vacantPositions rb ≠ []
        ∧ (Doubled.try_push rb x).1.data
            = rb.data.set ((Doubled.vacantPositions rb).headI) (some x)
        ∧ (Doubled.try_push rb x).1.readIdx = rb.readIdx
        ∧ (Doubled.try_push rb x).1.writeIdx
            = (rb.writeIdx + 1) % (2 * Doubled.capacity rb)
        ∧ Doubled.len (Doubled.try_push rb x).1 = Doubled.len rb + 1) := by
  constructor
  · intro hf
    unfold Doubled.try_push
    rw [hf]
    simp
  · intro hnf
    have hlt := Doubled.len_lt_of_not_full rb hv hnf
    have hcons := Doubled.vacantPositions_cons rb hv hlt
    have hstep : Doubled.try_push rb x
        = (Doubled.advance_write_index
            { rb with data :=
                rb.data.set (Doubled.vacantRanges rb).1.1 (some x) } 1,
           none) := by
      unfold Doubled.try_push
      rw [hnf]
      simp
    have hcap : Doubled.capacity
        ({ rb with data :=
            rb.data.set (Doubled.vacantRanges rb).1.1 (some x) }
          : Doubled.LocalRb α) = Doubled.capacity rb := by
      unfold Doubled.capacity
      exact List.length_set ..
    refine ⟨by rw [hstep], by rw [hcons]; simp, ?_, by rw [hstep]; rfl,
      ?_, ?_⟩
    · rw [hstep, hcons]
      rfl
    · rw [hstep]
      show (rb.writeIdx + 1)
          % (2 * Doubled.capacity
              ({ rb with data :=
                  rb.data.set (Doubled.vacantRanges rb).1.1 (some x) }
                : Doubled.LocalRb α))
        = (rb.writeIdx + 1) % (2 * Doubled.capacity rb)
      rw [hcap]
    · rw [hstep]
      have h1 : Doubled.len (Doubled.advance_write_index
            ({ rb with data :=
                rb.data.set (Doubled.vacantRanges rb).1.1 (some x) }
              : Doubled.LocalRb α) 1)
          = Doubled.lenIdx (Doubled.capacity rb) rb.readIdx
              ((rb.writeIdx + 1) % (2 * Doubled.capacity rb)) := by
        unfold Doubled.len Doubled.advance_write_index Doubled.capacity
        dsimp only
        rw [List.length_set]
      rw [h1]
      exact Doubled.lenIdx_advance (Doubled.capacity rb) rb.readIdx
        rb.writeIdx 1 hv.1 hv.2.1 hv.2.2.1 (by
          have h' := hlt
          unfold Doubled.len at h'
          omega)

theorem doubled_try_push_correct_witness :
    (Doubled.is_full
        (Doubled.LocalRb.mk ([none, none] : List (Option Nat)) 0 0) = true →
      Doubled.try_push
          (Doubled.LocalRb.mk ([none, none] : List (Option Nat)) 0 0) 7
        = (Doubled.LocalRb.mk ([none, none] : List (Option Nat)) 0 0, some 7))
    ∧ (Doubled.is_full
        (Doubled.LocalRb.mk ([none, none] : List (Option Nat)) 0 0) = false →
      (Doubled.try_push
          (Doubled.LocalRb.mk ([none, none] : List (Option Nat)) 0 0) 7).2
        = none
      ∧ Doubled.vacantPositions
          (Doubled.LocalRb.mk ([none, none] : List (Option Nat)) 0 0) ≠ []
      ∧ (Doubled.try_push
          (Doubled.LocalRb.mk ([none, none] : List (Option Nat)) 0 0) 7).1.data
        = (Doubled.LocalRb.mk ([none, none] : List (Option Nat)) 0 0).data.set
            ((Doubled.vacantPositions
              (Doubled.LocalRb.mk
                ([none, none] : List (Option Nat)) 0 0)).headI) (some 7)
      ∧ (Doubled.try_push
          (Doubled.LocalRb.mk
            ([none, none] : List (Option Nat)) 0 0) 7).1.readIdx = 0
      ∧ (Doubled.try_push
          (Doubled.LocalRb.mk
            ([none, none] : List (Option Nat)) 0 0) 7).1.writeIdx
        = (0 + 1) % (2 * Doubled.capacity
            (Doubled.LocalRb.mk ([none, none] : List (Option Nat)) 0 0))
      ∧ Doubled.len (Doubled.try_push
          (Doubled.LocalRb.mk ([none, none] : List (Option Nat)) 0 0) 7).1
        = Doubled.len
            (Doubled.LocalRb.mk ([none, none] : List (Option Nat)) 0 0) + 1) :=
  doubled_try_push_correct
    (Doubled.LocalRb.mk ([none, none] : List (Option Nat)) 0 0)
    (by unfold Doubled.Valid; decide) 7

namespace Doubled

/-- Helper: full characterization of `push_slice` on a valid state: it
returns `min(elems.len(), remaining())`, fills the vacant projection
(left slice first) with that many leading elements, advances the write index
by exactly that count and grows the occupancy by it. -/
theorem push_slice_spec (rb : LocalRb α) (hv : Valid rb) (elems : List α) :
    (push_slice rb elems).2 = min elems.length (remaining rb)
    ∧ (push_slice rb elems).1.readIdx = rb.readIdx
    ∧ (push_slice rb elems).1.writeIdx
        = (rb.writeIdx + (push_slice rb elems).2) % (2 * capacity rb)
    ∧ (push_slice rb elems).1.data
        = writeAt rb.data (vacantPositions rb)
            (elems.take (min elems.length (remaining rb)))
    ∧ len (push_slice rb elems).1 = len rb + (push_slice rb elems).2 := by
  have hvp := vacantPositions_length rb hv
  unfold vacantPositions at hvp
  rw [List.length_append] at hvp
  have hlenle := hv.2.2.2
  have hfin : ∀ (D : List (Option α)) (C : Nat),
      D.length = rb.data.length → C ≤ remaining rb →
      push_slice rb elems
        = ({ rb with
              data := D,
              writeIdx := (rb.writeIdx + C) % (2 * capacity rb) }, C) →
      C = min elems.length (remaining rb) →
      D = writeAt rb.data (vacantPositions rb)
            (elems.take (min elems.length (remaining rb))) →
      (push_slice rb elems).2 = min elems.length (remaining rb)
      ∧ (push_slice rb elems).1.readIdx = rb.readIdx
      ∧ (push_slice rb elems).1.writeIdx
          = (rb.writeIdx + (push_slice rb elems).2) % (2 * capacity rb)
      ∧ (push_slice rb elems).1.data
          = writeAt rb.data (vacantPositions rb)
              (elems.take (min elems.length (remaining rb)))
      ∧ len (push_slice rb elems).1 = len rb + (push_slice rb elems).2 := by
    intro D C hD hC hps hCmin hDeq
    refine ⟨by rw [hps, ← hCmin], by rw [hps], by rw [hps], ?_, ?_⟩
    · rw [hps, ← hDeq]
    · rw [hps]
      have h1 : len ({ rb with
              data := D,
              writeIdx := (rb.writeIdx + C) % (2 * capacity rb) }
            : LocalRb α)
          = lenIdx (capacity rb) rb.readIdx
              ((rb.writeIdx + C) % (2 * capacity rb)) := by
        unfold len capacity
        dsimp only
        rw [hD]
      rw [h1]
      exact lenIdx_advance (capacity rb) rb.readIdx rb.writeIdx C
        hv.1 hv.2.1 hv.2.2.1 (by
          have h2 : remaining rb = capacity rb - len rb := rfl
          unfold len at *
          omega)
  by_cases h1 : elems.length < (posList (vacantRanges rb).1).length
  · refine hfin (writeAt rb.data (posList (vacantRanges rb).1) elems)
      elems.length (writeAt_length ..) (by omega) ?_ (by omega) ?_
    · unfold push_slice advance_write_index capacity
      dsimp only
      rw [if_pos h1, writeAt_length]
    · unfold vacantPositions
      rw [min_eq_left (by omega), List.take_length, writeAt_append,
        List.drop_eq_nil_of_le (le_of_lt h1), writeAt_nil]
  · by_cases h2 : (elems.drop (posList (vacantRanges rb).1).length).length
        < (posList (vacantRanges rb).2).length
    · refine hfin
        (writeAt
          (writeAt rb.data (posList (vacantRanges rb).1)
            (elems.take (posList (vacantRanges rb).1).length))
          (posList (vacantRanges rb).2)
          (elems.drop (posList (vacantRanges rb).1).length))
        elems.length ?_ ?_ ?_ ?_ ?_
      · rw [writeAt_length, writeAt_length]
      · rw [List.length_drop] at h2
        omega
      · unfold push_slice advance_write_index capacity
        dsimp only
        rw [if_neg h1]
        simp only [List.splitAt_eq]
        rw [if_pos h2, writeAt_length, writeAt_length]
        have h3 : (posList (vacantRanges rb).1).length
              + (elems.drop (posList (vacantRanges rb).1).length).length
            = elems.length := by
          rw [List.length_drop]
          omega
        rw [h3]
      · rw [List.length_drop] at h2
        omega
      · rw [List.length_drop] at h2
        unfold vacantPositions
        rw [min_eq_left (by omega), List.take_length, writeAt_append,
          writeAt_take]
    · refine hfin
        (writeAt
          (writeAt rb.data (posList (vacantRanges rb).1)
            (elems.take (posList (vacantRanges rb).1).length))
          (posList (vacantRanges rb).2)
          ((elems.drop (posList (vacantRanges rb).1).length).take
            (posList (vacantRanges rb).2).length))
        ((posList (vacantRanges rb).1).length
          + (posList (vacantRanges rb).2).length) ?_ (by omega) ?_ ?_ ?_
      · rw [writeAt_length, writeAt_length]
      · unfold push_slice advance_write_index capacity
        dsimp only
        rw [if_neg h1]
        simp only [List.splitAt_eq]
        rw [if_neg h2, writeAt_length, writeAt_length]
      · rw [List.length_drop] at h2
        omega
      · rw [List.length_drop] at h2
        have hmin : min elems.length (remaining rb) = remaining rb := by
          omega
        unfold vacantPositions
        rw [hmin, ← hvp, writeAt_append]
        congr 1
        · rw [← writeAt_take rb.data (posList (vacantRanges rb).1)
            (elems.take ((posList (vacantRanges rb).1).length
              + (posList (vacantRanges rb).2).length)),
            List.take_take, min_eq_left (by omega)]
        · rw [← List.take_drop]

end Doubled

/-- C4: `push_slice(items)` on a valid state copies exactly
`min(items.len(), remaining())` leading elements of `items` into the vacant
region — along the vacant projection, which lists the left vacant slice
before the right one — advances the write index by exactly that count (the
occupancy grows by it), and returns that count; a short count is an ordinary
return value, not an error. -/
theorem doubled_push_slice_correct {α : Type} (rb : Doubled.LocalRb α)
    (hv : Doubled.Valid rb) (elems : List α) :
    (Doubled.push_slice rb elems).2
        = min elems.length (Doubled.remaining rb)
    ∧ (Doubled.push_slice rb elems).1.readIdx = rb.readIdx
    ∧ (Doubled.push_slice rb elems).1.writeIdx
        = (rb.writeIdx + (Doubled.push_slice rb elems).2)
            % (2 * Doubled.capacity rb)
    ∧ (Doubled.push_slice rb elems).1.data
        = Doubled.writeAt rb.data (Doubled.vacantPositions rb)
            (elems.take (min elems.length (Doubled.remaining rb)))
    ∧ Doubled.len (Doubled.push_slice rb elems).1
        = Doubled.len rb + (Doubled.push_slice rb elems).2 :=
  Doubled.push_slice_spec rb hv elems

theorem doubled_push_slice_correct_witness :
    (Doubled.push_slice
        (Doubled.LocalRb.mk ([some 1, none, none] : List (Option Nat)) 0 1)
        [10, 20, 30]).2
      = min ([10, 20, 30] : List Nat).length
          (Doubled.remaining
            (Doubled.LocalRb.mk ([some 1, none, none] : List (Option Nat)) 0 1))
    ∧ (Doubled.push_slice
        (Doubled.LocalRb.mk ([some 1, none, none] : List (Option Nat)) 0 1)
        [10, 20, 30]).1.readIdx = 0
    ∧ (Doubled.push_slice
        (Doubled.LocalRb.mk ([some 1, none, none] : List (Option Nat)) 0 1)
        [10, 20, 30]).1.writeIdx
      = (1 + (Doubled.push_slice
          (Doubled.LocalRb.mk ([some 1, none, none] : List (Option Nat)) 0 1)
          [10, 20, 30]).2)
        % (2 * Doubled.capacity
            (Doubled.LocalRb.mk ([some 1, none, none] : List (Option Nat)) 0 1))
    ∧ (Doubled.push_slice
        (Doubled.LocalRb.mk ([some 1, none, none] : List (Option Nat)) 0 1)
        [10, 20, 30]).1.data
      = Doubled.writeAt ([some 1, none, none] : List (Option Nat))
          (Doubled.vacantPositions
            (Doubled.LocalRb.mk ([some 1, none, none] : List (Option Nat)) 0 1))
          (([10, 20, 30] : List Nat).take
            (min ([10, 20, 30] : List Nat).length
              (Doubled.remaining
                (Doubled.LocalRb.mk
                  ([some 1, none, none] : List (Option Nat)) 0 1))))
    ∧ Doubled.len (Doubled.push_slice
        (Doubled.LocalRb.mk ([some 1, none, none] : List (Option Nat)) 0 1)
        [10, 20, 30]).1
      = Doubled.len
          (Doubled.LocalRb.mk ([some 1, none, none] : List (Option Nat)) 0 1)
        + (Doubled.push_slice
            (Doubled.LocalRb.mk ([some 1, none, none] : List (Option Nat)) 0 1)
            [10, 20, 30]).2 :=
  doubled_push_slice_correct
    (Doubled.LocalRb.mk ([some 1, none, none] : List (Option Nat)) 0 1)
    (by unfold Doubled.Valid; decide) [10, 20, 30]


namespace Doubled

/-- Helper: two `LocalRb` states with equal fields are equal. -/
theorem LocalRb.eq_of_fields (a b : LocalRb α) (hd : a.data = b.data)
    (hr : a.readIdx = b.readIdx) (hw : a.writeIdx = b.writeIdx) : a = b := by
  cases a
  cases b
  simp_all

/-- Helper: the left vacant slice is at most the whole vacant region. -/
theorem vacantLeft_length_le (rb : LocalRb α) (hv : Valid rb) :
    (vacantLeft rb).length ≤ remaining rb := by
  have h := vacantPositions_length rb hv
  unfold vacantPositions at h
  rw [List.length_append] at h
  unfold vacantLeft
  omega

/-- Helper: the storage contents `read_from` leaves behind on a successful
read. -/
def readFromData (rb : LocalRb α) (countArg : Option Nat)
    (bytes : List α) : List (Option α) :=
  writeAt rb.data ((vacantLeft rb).take (readCount rb countArg)) bytes

end Doubled

/-- C6: `read_from(reader, count)` reads bytes only into the first (left)
vacant slice, asking the external reader for at most
`min(count, left slice length)` bytes; a reader error is propagated
unchanged with the whole state — in particular the write index — left
untouched, while a successful (well-behaved) read of `n` bytes advances the
write index by exactly `n`, stores the bytes at the head of the left vacant
slice, and changes no cell outside the left vacant slice. -/
theorem doubled_read_from_correct {α ε : Type} (rb : Doubled.LocalRb α)
    (hv : Doubled.Valid rb) (reader : Nat → Except ε (List α))
    (countArg : Option Nat) :
    Doubled.readCount rb countArg ≤ (Doubled.vacantLeft rb).length
    ∧ (∀ er, reader (Doubled.readCount rb countArg) = Except.error er →
        Doubled.read_from rb reader countArg = (rb, Except.error er))
    ∧ (∀ bytes, reader (Doubled.readCount rb countArg) = Except.ok bytes →
        bytes.length ≤ Doubled.readCount rb countArg →
        (Doubled.read_from rb reader countArg).2 = Except.ok bytes.length
        ∧ (Doubled.read_from rb reader countArg).1.readIdx = rb.readIdx
        ∧ (Doubled.read_from rb reader countArg).1.writeIdx
            = (rb.writeIdx + bytes.length) % (2 * Doubled.capacity rb)
        ∧ Doubled.len (Doubled.read_from rb reader countArg).1
            = Doubled.len rb + bytes.length
        ∧ (Doubled.read_from rb reader countArg).1.data
            = Doubled.writeAt rb.data
                ((Doubled.vacantLeft rb).take (Doubled.readCount rb countArg))
                bytes
        ∧ ∀ p, p ∉ Doubled.vacantLeft rb →
            ((Doubled.read_from rb reader countArg).1.data)[p]?
              = rb.data[p]?) := by
  refine ⟨min_le_right _ _, ?_, ?_⟩
  · intro er her
    unfold Doubled.read_from
    dsimp only
    rw [her]
  · intro bytes hok hwb
    have hstep : Doubled.read_from rb reader countArg
        = (Doubled.advance_write_index
            (Doubled.LocalRb.mk (Doubled.readFromData rb countArg bytes)
              rb.readIdx rb.writeIdx)
            bytes.length,
           Except.ok bytes.length) := by
      unfold Doubled.read_from Doubled.readFromData
      dsimp only
      rw [hok]
    have hcap : (Doubled.readFromData rb countArg bytes).length
        = rb.data.length := by
      unfold Doubled.readFromData
      exact Doubled.writeAt_length ..
    have hn : bytes.length ≤ Doubled.remaining rb :=
      le_trans hwb (le_trans (min_le_right _ _)
        (Doubled.vacantLeft_length_le rb hv))
    refine ⟨by rw [hstep], by rw [hstep]; rfl, ?_, ?_,
      by rw [hstep]; rfl, ?_⟩
    · rw [hstep]
      show (rb.writeIdx + bytes.length) % (2 * _) = _
      unfold Doubled.capacity
      rw [hcap]
    · rw [hstep]
      have h1 : Doubled.len (Doubled.advance_write_index
            (Doubled.LocalRb.mk (Doubled.readFromData rb countArg bytes)
              rb.readIdx rb.writeIdx)
            bytes.length)
          = Doubled.lenIdx (Doubled.capacity rb) rb.readIdx
              ((rb.writeIdx + bytes.length) % (2 * Doubled.capacity rb)) := by
        unfold Doubled.len Doubled.advance_write_index Doubled.capacity
        dsimp only
        rw [hcap]
      rw [h1]
      exact Doubled.lenIdx_advance (Doubled.capacity rb) rb.readIdx
        rb.writeIdx bytes.length hv.1 hv.2.1 hv.2.2.1 (by
          have h2 : Doubled.remaining rb
              = Doubled.capacity rb - Doubled.len rb := rfl
          have h3 := hv.2.2.2
          unfold Doubled.len at *
          omega)
    · intro p hp
      rw [hstep]
      show (Doubled.readFromData rb countArg bytes)[p]? = _
      unfold Doubled.readFromData
      rw [Doubled.writeAt_getElem_not_mem]
      intro hmem
      exact hp (List.take_subset _ _ hmem)

theorem doubled_read_from_correct_witness :
    (Doubled.read_from
        (Doubled.LocalRb.mk ([some 1, none, none] : List (Option Nat)) 0 1)
        (fun _ => (Except.ok [5] : Except Unit (List Nat))) none).2
      = Except.ok 1
    ∧ Doubled.len (Doubled.read_from
        (Doubled.LocalRb.mk ([some 1, none, none] : List (Option Nat)) 0 1)
        (fun _ => (Except.ok [5] : Except Unit (List Nat))) none).1
      = Doubled.len
          (Doubled.LocalRb.mk ([some 1, none, none] : List (Option Nat)) 0 1)
        + 1 := by
  have h := (doubled_read_from_correct
      (Doubled.LocalRb.mk ([some 1, none, none] : List (Option Nat)) 0 1)
      (by unfold Doubled.Valid; decide)
      (fun _ => (Except.ok [5] : Except Unit (List Nat))) none).2.2
      [5] rfl (by decide)
  exact ⟨h.1, h.2.2.2.1⟩

/-- C7 fails on the code: on a full buffer, the push-side byte adapter
`write` with a nonempty input does return an error result — an `Err` of kind
`WouldBlock` — rather than a success count. -/
theorem doubled_write_error_on_full_counterexample :
    Doubled.is_full
        (Doubled.LocalRb.mk ([some 7] : List (Option Nat)) 0 1) = true
    ∧ (Doubled.write
        (Doubled.LocalRb.mk ([some 7] : List (Option Nat)) 0 1) [42]).2
      = Except.error Doubled.IoErrorKind.wouldBlock :=
  ⟨rfl, rfl⟩

/-- C7 (amended): on a full valid buffer the push-side byte adapter consumes
0 bytes and leaves the state unchanged; with a nonempty input it reports the
0-byte outcome as an `Err` of kind `WouldBlock` — a would-block condition,
the only error the adapter itself ever produces — and with an empty input it
returns `Ok(0)`. -/
theorem doubled_write_on_full {α : Type} (rb : Doubled.LocalRb α)
    (hv : Doubled.Valid rb) (hf : Doubled.is_full rb = true)
    (buffer : List α) :
    (Doubled.write rb buffer).1 = rb
    ∧ (buffer ≠ [] →
        (Doubled.write rb buffer).2
          = Except.error Doubled.IoErrorKind.wouldBlock)
    ∧ (buffer = [] → (Doubled.write rb buffer).2 = Except.ok 0) := by
  have hlc : Doubled.len rb = Doubled.capacity rb := by
    simpa [Doubled.is_full] using hf
  have hrem : Doubled.remaining rb = 0 := by
    unfold Doubled.remaining
    omega
  obtain ⟨h1, h2, h3, h4, h5⟩ := Doubled.push_slice_spec rb hv buffer
  rw [hrem, Nat.min_zero] at h1 h4
  rw [List.take_zero, Doubled.writeAt_nil] at h4
  rw [h1, Nat.add_zero, Nat.mod_eq_of_lt hv.2.2.1] at h3
  have hfst : (Doubled.write rb buffer).1
      = (Doubled.push_slice rb buffer).1 := by
    unfold Doubled.write
    dsimp only
    split <;> rfl
  have hstate : (Doubled.push_slice rb buffer).1 = rb :=
    Doubled.LocalRb.eq_of_fields _ _ h4 h2 h3
  refine ⟨hfst.trans hstate, ?_, ?_⟩
  · intro hne
    have hie : buffer.isEmpty = false := by
      cases buffer with
      | nil => exact absurd rfl hne
      | cons y ys => rfl
    unfold Doubled.write
    dsimp only
    rw [if_pos ⟨h1, hie⟩]
  · intro he
    subst he
    unfold Doubled.write
    dsimp only
    rw [if_neg (by
      intro hcon
      have := hcon.2
      simp [List.isEmpty] at this)]
    rw [h1]

theorem doubled_write_on_full_witness :
    (Doubled.write
        (Doubled.LocalRb.mk ([some 7] : List (Option Nat)) 0 1) [42]).1
      = Doubled.LocalRb.mk ([some 7] : List (Option Nat)) 0 1
    ∧ (([42] : List Nat) ≠ [] →
        (Doubled.write
          (Doubled.LocalRb.mk ([some 7] : List (Option Nat)) 0 1) [42]).2
          = Except.error Doubled.IoErrorKind.wouldBlock)
    ∧ (([42] : List Nat) = [] →
        (Doubled.write
          (Doubled.LocalRb.mk ([some 7] : List (Option Nat)) 0 1) [42]).2
          = Except.ok 0) :=
  doubled_write_on_full
    (Doubled.LocalRb.mk ([some 7] : List (Option Nat)) 0 1)
    (by unfold Doubled.Valid; decide) (by decide) [42]
